import Mathlib

/-!
Verification development for the agent runtime in
`sweagent/agent/agents.py` (DARS-Agent repository).

Strings are embedded as `List Char`.  The runtime is verified at a fixed,
representative command configuration (the pattern tables are compiled from the
configuration once, in `_parse_command_patterns`, so every run of the program
operates over one such fixed table):

  * one block command  `{name := "edit", end_name := "end_edit"}`,
  * the submit command `"submit"` with no `submit_command_end_name`,
  * no declared subroutines (the submit pattern is still inserted in both the
    command table and the subroutine table, as the source does),
  * `multi_line_command_endings = {"edit" ↦ "end_edit"}`,
  * agent name `"primary"`.

The compiled patterns for this configuration are
  * `edit` :  `^\s*(edit)\s*(.*?)^(end_edit)\s*$`  with DOTALL and MULTILINE,
  * `submit`: `^\s*(submit)(\s*)$`                 with MULTILINE,
and the Python `re.search` semantics of these two concrete patterns
(leftmost start position; greedy `\s*`, lazy `(.*?)`, `^`/`$` at line
boundaries under MULTILINE, `.` crossing newlines under DOTALL) are embedded
below as executable functions.
-/

set_option maxRecDepth 40000

namespace DarsAgent

/-- Convert a string literal to the `List Char` representation used throughout. -/
def cs (s : String) : List Char := s.toList

/-- Python's notion of whitespace for `str.strip`, `str.split` and `\s`
(ASCII range, which covers every character occurring in this development). -/
def isPyWS (c : Char) : Bool :=
  c = ' ' || c = '\t' || c = '\n' || c = '\r' || c = '\x0b' || c = '\x0c'

/-- Python `str.strip()`: remove leading and trailing whitespace. -/
def pyStrip (a : List Char) : List Char :=
  ((a.dropWhile isPyWS).reverse.dropWhile isPyWS).reverse

/-- Tokenizer behind `pySplitWs`: the first argument is the in-progress
token (reversed), the second the characters still to scan. -/
def pySplitWsGo : Option (List Char) → List Char → List (List Char)
  | none, [] => []
  | some tok, [] => [tok.reverse]
  | none, c :: rest =>
    if isPyWS c then pySplitWsGo none rest else pySplitWsGo (some [c]) rest
  | some tok, c :: rest =>
    if isPyWS c then tok.reverse :: pySplitWsGo none rest
    else pySplitWsGo (some (c :: tok)) rest

/-- Python `str.split()` with no separator: split on runs of whitespace,
discarding empty pieces. -/
def pySplitWs (l : List Char) : List (List Char) :=
  pySplitWsGo none l

/-- The non-whitespace content of a text, in order. -/
def nonWS (a : List Char) : List Char := a.filter (fun c => !isPyWS c)

/-- Python `"\n".join(pieces)`. -/
def joinNL : List (List Char) → List Char
  | [] => []
  | [x] => x
  | x :: y :: rest => x ++ '\n' :: joinNL (y :: rest)

/-- Python `needle in haystack` (substring containment). -/
def isSubstr (needle : List Char) : List Char → Bool
  | [] => needle.isEmpty
  | c :: rest => needle.isPrefixOf (c :: rest) || isSubstr needle rest

/-- Try `f` at `n, n-1, …, 0` and return the first success: the order in
which a backtracking regex engine explores the lengths consumed by a greedy
`\s*`. -/
def findDesc (n : Nat) (f : Nat → Option α) : Option α :=
  match f n with
  | some b => some b
  | none => match n with
    | 0 => none
    | m + 1 => findDesc m f

/-- Try `f` at `0, 1, …, n` and return the success of smallest index: the
order in which the engine explores a lazy `(.*?)`, and in which `re.search`
scans candidate start positions. -/
def findAsc : Nat → (Nat → Option α) → Option α
  | 0, f => f 0
  | n + 1, f =>
    match findAsc n f with
    | some b => some b
    | none => f (n + 1)

/-- `^` under MULTILINE: start of string or just after a newline. -/
def lineStart (a : List Char) (i : Nat) : Bool :=
  i = 0 || a[i - 1]? = some '\n'

/-- `$` under MULTILINE: end of string or just before a newline. -/
def endAnchor (a : List Char) (p : Nat) : Bool :=
  p = a.length || a[p]? = some '\n'

/-- Length of the maximal whitespace run of `a` starting at position `i`
(the most a greedy `\s*` can consume there). -/
def wsRun (a : List Char) (i : Nat) : Nat :=
  ((a.drop i).takeWhile isPyWS).length

/-- Literal `lit` occurs in `a` at position `i`. -/
def litAt (lit a : List Char) (i : Nat) : Bool :=
  lit.isPrefixOf (a.drop i)

theorem findDesc_eq_some {f : Nat → Option α} :
    ∀ {n : Nat} {b : α}, findDesc n f = some b → ∃ k, k ≤ n ∧ f k = some b := by
  intro n
  induction n with
  | zero =>
    intro b h
    rw [findDesc] at h
    split at h
    · rename_i c hc
      exact ⟨0, Nat.le_refl 0, by rw [hc]; exact h⟩
    · simp at h
  | succ m ih =>
    intro b h
    rw [findDesc] at h
    split at h
    · rename_i c hc
      exact ⟨m + 1, Nat.le_refl _, by rw [hc]; exact h⟩
    · rcases ih h with ⟨k, hk, hfk⟩
      exact ⟨k, Nat.le_succ_of_le hk, hfk⟩

theorem findAsc_eq_some {f : Nat → Option α} :
    ∀ {n : Nat} {b : α}, findAsc n f = some b → ∃ k, k ≤ n ∧ f k = some b := by
  intro n
  induction n with
  | zero => exact fun h => ⟨0, Nat.le_refl 0, h⟩
  | succ m ih =>
    intro b h
    rw [findAsc] at h
    split at h
    · rename_i c hc
      rcases ih hc with ⟨k, hk, hfk⟩
      exact ⟨k, Nat.le_succ_of_le hk, by rw [hfk]; exact h⟩
    · exact ⟨m + 1, Nat.le_refl _, h⟩

theorem endAnchor_le {a : List Char} {p : Nat} (h : endAnchor a p = true) :
    p ≤ a.length := by
  rw [endAnchor] at h
  rcases Bool.or_eq_true_iff.mp h with h' | h'
  · exact Nat.le_of_eq (by exact_mod_cast decide_eq_true_eq.mp h')
  · have : p < a.length := by
      by_contra hge
      rw [List.getElem?_eq_none (by omega)] at h'
      simp at h'
    exact Nat.le_of_lt this

/-! ### The fixed command configuration (see the header comment) -/

/-- `config._commands[0].name`. -/
def editName : List Char := cs "edit"

/-- `config._commands[0].end_name`. -/
def endEditName : List Char := cs "end_edit"

/-- `config.submit_command`. -/
def submitName : List Char := cs "submit"

/-- The agent's `self.name`. -/
def selfName : List Char := cs "primary"

/-! ### `re.search` for the two compiled patterns

`_parse_command_patterns` compiles, for this configuration,
`command_patterns = {edit ↦ editPat, submit ↦ submitPat}` and
`subroutine_patterns = {submit ↦ submitPat}`.  `_get_first_match` then
searches every pattern of the selected view and keeps the match with the
smallest start offset; each view below contains a single pattern, so the
search of that pattern is the whole of `_get_first_match` for that view. -/

/-- Attempt of the submit pattern `^\s*(submit)(\s*)$` (MULTILINE) at start
position `i`: `^`, then greedy `\s*`, the literal, the greedy `(\s*)` capture
and `$`.  Returns `(matchEnd, group2Start, group2Len)`. -/
def matchSubmitAt (a : List Char) (i : Nat) : Option (Nat × Nat × Nat) :=
  if lineStart a i then
    findDesc (wsRun a i) (fun w1 =>
      if litAt submitName a (i + w1) then
        findDesc (wsRun a (i + w1 + submitName.length)) (fun w2 =>
          if endAnchor a (i + w1 + submitName.length + w2) then
            some (i + w1 + submitName.length + w2, i + w1 + submitName.length, w2)
          else none)
      else none)
  else none

/-- A match of the submit pattern: span `[s, e)` and the `(\s*)` capture
(group 2), as used by `split_actions`. -/
structure SubMatch where
  s : Nat
  e : Nat
  g2s : Nat
  g2l : Nat
deriving Repr, DecidableEq

/-- `re.search` of the submit pattern: smallest start position that admits a
match (this is `_get_first_match(action, "subroutine")` at our
configuration). -/
def searchSubmit (a : List Char) : Option SubMatch :=
  findAsc a.length (fun i =>
    (matchSubmitAt a i).map (fun r => ⟨i, r.1, r.2.1, r.2.2⟩))

/-- Attempt of the edit pattern `^\s*(edit)\s*(.*?)^(end_edit)\s*$`
(DOTALL, MULTILINE) at start position `i`: `^`, greedy `\s*`, the name
literal, greedy `\s*`, lazy `(.*?)`, a line start, the end-marker literal,
greedy `\s*` and `$`.  Returns the match end. -/
def matchEditAt (a : List Char) (i : Nat) : Option Nat :=
  if lineStart a i then
    findDesc (wsRun a i) (fun w1 =>
      if litAt editName a (i + w1) then
        findDesc (wsRun a (i + w1 + editName.length)) (fun w2 =>
          findAsc a.length (fun m =>
            if lineStart a (i + w1 + editName.length + w2 + m) &&
                litAt endEditName a (i + w1 + editName.length + w2 + m) then
              findDesc (wsRun a (i + w1 + editName.length + w2 + m + endEditName.length))
                (fun w3 =>
                  if endAnchor a
                      (i + w1 + editName.length + w2 + m + endEditName.length + w3) then
                    some (i + w1 + editName.length + w2 + m + endEditName.length + w3)
                  else none)
            else none))
      else none)
  else none

/-- `re.search` of the edit pattern, returning the span `(start, end)`
(this is `_get_first_match(action, "multi_line_no_subroutines")` at our
configuration; group 3 of any match is the literal `end_edit`). -/
def searchEdit (a : List Char) : Option (Nat × Nat) :=
  findAsc a.length (fun i => (matchEditAt a i).map (fun e => (i, e)))

theorem matchSubmitAt_bounds {a : List Char} {i : Nat} {r : Nat × Nat × Nat}
    (h : matchSubmitAt a i = some r) : i < r.1 ∧ r.1 ≤ a.length := by
  rw [matchSubmitAt] at h
  split at h
  · rcases findDesc_eq_some h with ⟨w1, _, h1⟩
    split at h1
    · rcases findDesc_eq_some h1 with ⟨w2, _, h2⟩
      split at h2
      · rename_i hAnch
        simp only [Option.some.injEq] at h2
        subst h2
        refine ⟨?_, endAnchor_le hAnch⟩
        have hs : 0 < submitName.length := by decide
        simp only []
        omega
      · simp at h2
    · simp at h1
  · simp at h

theorem searchSubmit_bounds {a : List Char} {m : SubMatch}
    (h : searchSubmit a = some m) : m.s < m.e ∧ m.e ≤ a.length := by
  rcases findAsc_eq_some h with ⟨i, _, hi⟩
  rcases Option.map_eq_some'.mp hi with ⟨r, hr, hm⟩
  have hb := matchSubmitAt_bounds hr
  subst hm
  exact hb

theorem matchEditAt_bounds {a : List Char} {i e : Nat}
    (h : matchEditAt a i = some e) : i < e ∧ e ≤ a.length := by
  rw [matchEditAt] at h
  split at h
  · rcases findDesc_eq_some h with ⟨w1, _, h1⟩
    split at h1
    · rcases findDesc_eq_some h1 with ⟨w2, _, h2⟩
      rcases findAsc_eq_some h2 with ⟨m, _, h3⟩
      split at h3
      · rcases findDesc_eq_some h3 with ⟨w3, _, h4⟩
        split at h4
        · rename_i hAnch
          simp only [Option.some.injEq] at h4
          subst h4
          refine ⟨?_, endAnchor_le hAnch⟩
          have hs : 0 < editName.length := by decide
          omega
        · simp at h4
      · simp at h3
    · simp at h1
  · simp at h

theorem searchEdit_bounds {a : List Char} {p : Nat × Nat}
    (h : searchEdit a = some p) : p.1 < p.2 ∧ p.2 ≤ a.length := by
  rcases findAsc_eq_some h with ⟨i, _, hi⟩
  rcases Option.map_eq_some'.mp hi with ⟨e, he, hp⟩
  have hb := matchEditAt_bounds he
  subst hp
  exact hb

/-! ### `_guard_multiline_input` -/

/-- `f" << '{eof}'"` for `eof = "end_edit"` (group 3 of every edit-pattern
match is the literal `end_edit`, so `eof = first_match.group(3).strip()` is
this constant at our configuration). -/
def heredocOpen : List Char := cs " << 'end_edit'"

/-- `f"<< '{eof}'"`, the suffix tested by the guard. -/
def heredocTest : List Char := cs "<< 'end_edit'"

/-- The rewrite branch of `_guard_multiline_input`:
`guarded_command = match_action[first_match.start():]`, then the first line of
`guarded_command` is replaced (first occurrence, which is its own prefix,
also when that first line is empty) by itself followed by the heredoc
opening. -/
def guardRewrite (ma : List Char) (s : Nat) : List Char :=
  let g := ma.drop s
  let firstLine := g.takeWhile (fun c => c != '\n')
  firstLine ++ heredocOpen ++ g.drop firstLine.length

/-- The loop of `_guard_multiline_input`, with an explicit fuel argument so
that the kernel can evaluate it.  Any `fuel > rem.length` suffices, because
an iteration either stops or strictly shortens the remaining text
(`guardGo_fuel_irrel` below); `guardPieces` instantiates the fuel that way.
The loop repeatedly takes the first edit-pattern match of the remaining
text, keeps the non-blank text before it, guards the matched block unless
its first line already ends with the heredoc opening, and stops once the
remaining text is blank. -/
def guardGo : Nat → List Char → List (List Char)
  | 0, _ => []
  | fuel + 1, rem =>
    if pyStrip rem = [] then []
    else
      match searchEdit rem with
      | none => [rem]
      | some sp =>
        (if pyStrip (rem.take sp.1) = [] then [] else [rem.take sp.1]) ++
        (if pyStrip ((rem.drop sp.1).take (sp.2 - sp.1)) = [] then []
         else
           [if heredocTest.isSuffixOf
               (pyStrip (((rem.drop sp.1).take (sp.2 - sp.1)).takeWhile (fun c => c != '\n'))) then
             (rem.drop sp.1).take (sp.2 - sp.1)
           else guardRewrite ((rem.drop sp.1).take (sp.2 - sp.1)) sp.1]) ++
        guardGo fuel (rem.drop sp.2)

/-- The pieces accumulated in `parsed_action` by the loop of
`_guard_multiline_input`. -/
def guardPieces (rem : List Char) : List (List Char) :=
  guardGo (rem.length + 1) rem

theorem guardGo_fuel_irrel : ∀ {f₁ f₂ : Nat} {rem : List Char},
    rem.length < f₁ → rem.length < f₂ → guardGo f₁ rem = guardGo f₂ rem := by
  intro f₁
  induction f₁ with
  | zero => intro f₂ rem h1 h2; omega
  | succ n ih =>
    intro f₂ rem h1 h2
    cases f₂ with
    | zero => omega
    | succ m =>
      by_cases h0 : pyStrip rem = []
      · conv_lhs => rw [guardGo]
        conv_rhs => rw [guardGo]
        rw [if_pos h0, if_pos h0]
      · conv_lhs => rw [guardGo]
        conv_rhs => rw [guardGo]
        rw [if_neg h0, if_neg h0]
        cases h : searchEdit rem with
        | none => rfl
        | some sp =>
          have hb := searchEdit_bounds h
          have hlen : (rem.drop sp.2).length < n ∧ (rem.drop sp.2).length < m := by
            simp only [List.length_drop]
            omega
          simp only []
          rw [ih hlen.1 hlen.2]

theorem guardPieces_nilstrip {rem : List Char} (h : pyStrip rem = []) :
    guardPieces rem = [] := by
  rw [guardPieces, guardGo, if_pos h]

theorem guardPieces_nomatch {rem : List Char} (h0 : ¬pyStrip rem = [])
    (h : searchEdit rem = none) : guardPieces rem = [rem] := by
  rw [guardPieces, guardGo, if_neg h0, h]

theorem guardPieces_match {rem : List Char} {sp : Nat × Nat}
    (h0 : ¬pyStrip rem = []) (h : searchEdit rem = some sp) :
    guardPieces rem =
      (if pyStrip (rem.take sp.1) = [] then [] else [rem.take sp.1]) ++
      (if pyStrip ((rem.drop sp.1).take (sp.2 - sp.1)) = [] then []
       else
         [if heredocTest.isSuffixOf
             (pyStrip (((rem.drop sp.1).take (sp.2 - sp.1)).takeWhile (fun c => c != '\n'))) then
           (rem.drop sp.1).take (sp.2 - sp.1)
         else guardRewrite ((rem.drop sp.1).take (sp.2 - sp.1)) sp.1]) ++
      guardPieces (rem.drop sp.2) := by
  have hb := searchEdit_bounds h
  have hrec : guardGo rem.length (rem.drop sp.2) = guardPieces (rem.drop sp.2) := by
    rw [guardPieces]
    exact guardGo_fuel_irrel (by simp only [List.length_drop]; omega)
      (by simp only [List.length_drop]; omega)
  rw [guardPieces, guardGo, if_neg h0, h]
  simp only []
  rw [hrec]

/-- `_guard_multiline_input`: `"\n".join(parsed_action)`. -/
def guardMultilineInput (action : List Char) : List Char :=
  joinNL (guardPieces action)

/-! ### `split_actions` -/

/-- One parsed dispatch unit, as produced by `split_actions`. -/
structure SplitAction where
  agent : List Char
  args : Option (List Char)
  action : List Char
  cmdName : Option (List Char)
deriving Repr, DecidableEq

/-- The loop of `split_actions(action)` with the default
`pattern_type="subroutine"`, with an explicit fuel argument so that the
kernel can evaluate it (`fuel > action.length` always suffices, see
`splitGo_fuel_irrel`; `splitActions` instantiates the fuel that way).
The loop greedily takes the first match of the subroutine-pattern table (at
our configuration, the submit pattern), keeps non-blank preceding text as a
plain command, emits the match (as a plain submit action when its first
whitespace-token is the submit command, else as a subroutine call carrying
group 1 and group 2), and keeps the non-blank remainder once no match is
left. -/
def splitGo : Nat → List Char → List SplitAction
  | 0, _ => []
  | fuel + 1, action =>
    if pyStrip action = [] then []
    else
      match searchSubmit action with
      | none => [⟨selfName, none, action, none⟩]
      | some m =>
        (if pyStrip (action.take m.s) = [] then []
         else [⟨selfName, none, action.take m.s, none⟩]) ++
        (if pyStrip ((action.drop m.s).take (m.e - m.s)) = [] then []
         else
           [if (pySplitWs ((action.drop m.s).take (m.e - m.s))).head? = some submitName then
             (⟨selfName, none, (action.drop m.s).take (m.e - m.s), some submitName⟩ : SplitAction)
           else
             ⟨submitName, some ((action.drop m.g2s).take m.g2l),
               (action.drop m.s).take (m.e - m.s), some submitName⟩]) ++
        splitGo fuel (action.drop m.e)

/-- `split_actions(action)` with the default `pattern_type="subroutine"`. -/
def splitActions (action : List Char) : List SplitAction :=
  splitGo (action.length + 1) action

theorem splitGo_fuel_irrel : ∀ {f₁ f₂ : Nat} {action : List Char},
    action.length < f₁ → action.length < f₂ → splitGo f₁ action = splitGo f₂ action := by
  intro f₁
  induction f₁ with
  | zero => intro f₂ action h1 h2; omega
  | succ n ih =>
    intro f₂ action h1 h2
    cases f₂ with
    | zero => omega
    | succ k =>
      by_cases h0 : pyStrip action = []
      · conv_lhs => rw [splitGo]
        conv_rhs => rw [splitGo]
        rw [if_pos h0, if_pos h0]
      · conv_lhs => rw [splitGo]
        conv_rhs => rw [splitGo]
        rw [if_neg h0, if_neg h0]
        cases h : searchSubmit action with
        | none => rfl
        | some m =>
          have hb := searchSubmit_bounds h
          have hlen : (action.drop m.e).length < n ∧ (action.drop m.e).length < k := by
            simp only [List.length_drop]
            omega
          simp only []
          rw [ih hlen.1 hlen.2]

theorem splitActions_nilstrip {action : List Char} (h : pyStrip action = []) :
    splitActions action = [] := by
  rw [splitActions, splitGo, if_pos h]

theorem splitActions_nomatch {action : List Char} (h0 : ¬pyStrip action = [])
    (h : searchSubmit action = none) :
    splitActions action = [⟨selfName, none, action, none⟩] := by
  rw [splitActions, splitGo, if_neg h0, h]

theorem splitActions_match {action : List Char} {m : SubMatch}
    (h0 : ¬pyStrip action = []) (h : searchSubmit action = some m) :
    splitActions action =
      (if pyStrip (action.take m.s) = [] then []
       else [⟨selfName, none, action.take m.s, none⟩]) ++
      (if pyStrip ((action.drop m.s).take (m.e - m.s)) = [] then []
       else
         [if (pySplitWs ((action.drop m.s).take (m.e - m.s))).head? = some submitName then
           (⟨selfName, none, (action.drop m.s).take (m.e - m.s), some submitName⟩ : SplitAction)
         else
           ⟨submitName, some ((action.drop m.g2s).take m.g2l),
             (action.drop m.s).take (m.e - m.s), some submitName⟩]) ++
      splitActions (action.drop m.e) := by
  have hb := searchSubmit_bounds h
  have hrec : splitGo action.length (action.drop m.e) = splitActions (action.drop m.e) := by
    rw [splitActions]
    exact splitGo_fuel_irrel (by simp only [List.length_drop]; omega)
      (by simp only [List.length_drop]; omega)
  rw [splitActions, splitGo, if_neg h0, h]
  simp only []
  rw [hrec]

/-- Concatenation of the `action` fields of a list of split actions, in
order. -/
def joinActs : List SplitAction → List Char
  | [] => []
  | x :: xs => x.action ++ joinActs xs

/-! ### Helper lemmas about whitespace and slicing -/

theorem all_ws_of_strip {x : List Char} (h : pyStrip x = []) :
    ∀ c ∈ x, isPyWS c = true := by
  intro c hc
  rw [pyStrip, List.reverse_eq_nil_iff, List.dropWhile_eq_nil_iff] at h
  have hx := List.takeWhile_append_dropWhile (p := isPyWS) (l := x)
  rcases List.mem_append.mp (by rw [hx]; exact hc) with h1 | h2
  · exact List.mem_takeWhile_imp h1
  · exact h c (List.mem_reverse.mpr h2)

theorem nonWS_eq_nil_of_strip {x : List Char} (h : pyStrip x = []) :
    nonWS x = [] := by
  rw [nonWS, List.filter_eq_nil_iff]
  intro c hc
  simp [all_ws_of_strip h c hc]

theorem nonWS_append (x y : List Char) :
    nonWS (x ++ y) = nonWS x ++ nonWS y := List.filter_append _ _

theorem joinActs_append (l₁ l₂ : List SplitAction) :
    joinActs (l₁ ++ l₂) = joinActs l₁ ++ joinActs l₂ := by
  induction l₁ with
  | nil => simp [joinActs]
  | cons x xs ih => simp [joinActs, ih]

theorem take_mid_drop (a : List Char) (s e : Nat) (hse : s ≤ e) :
    a.take s ++ ((a.drop s).take (e - s) ++ a.drop e) = a := by
  conv_rhs => rw [← List.take_append_drop s a]
  congr 1
  conv_rhs => rw [← List.take_append_drop (e - s) (a.drop s)]
  congr 1
  rw [List.drop_drop]
  congr 1
  omega

/-- C6: for every action text, `split_actions` produces split actions in
textual order whose `action` fields, concatenated in the produced order,
reconstruct the input's non-whitespace content in its original order. -/
theorem split_actions_order_coverage (a : List Char) :
    nonWS (joinActs (splitActions a)) = nonWS a := by
  by_cases h0 : pyStrip a = []
  · rw [splitActions_nilstrip h0, nonWS_eq_nil_of_strip h0]
    rfl
  · cases h : searchSubmit a with
    | none =>
      rw [splitActions_nomatch h0 h]
      simp [joinActs, nonWS]
    | some m =>
      have hb := searchSubmit_bounds h
      have ih := split_actions_order_coverage (a.drop m.e)
      rw [splitActions_match h0 h]
      rw [joinActs_append, joinActs_append, nonWS_append, nonWS_append, ih]
      conv_rhs => rw [← take_mid_drop a m.s m.e (Nat.le_of_lt hb.1)]
      rw [nonWS_append, nonWS_append]
      have h1 : nonWS (joinActs (if pyStrip (List.take m.s a) = [] then []
          else [⟨selfName, none, List.take m.s a, none⟩])) = nonWS (List.take m.s a) := by
        split
        · rename_i hpre
          rw [nonWS_eq_nil_of_strip hpre]
          rfl
        · simp [joinActs]
      have h2 : nonWS (joinActs (if pyStrip (List.take (m.e - m.s) (List.drop m.s a)) = [] then []
          else [if (pySplitWs (List.take (m.e - m.s) (List.drop m.s a))).head? = some submitName then
              (⟨selfName, none, List.take (m.e - m.s) (List.drop m.s a), some submitName⟩ : SplitAction)
            else ⟨submitName, some (List.take m.g2l (List.drop m.g2s a)),
              List.take (m.e - m.s) (List.drop m.s a), some submitName⟩]))
          = nonWS (List.take (m.e - m.s) (List.drop m.s a)) := by
        split
        · rename_i hma
          rw [nonWS_eq_nil_of_strip hma]
          rfl
        · split <;> simp [joinActs]
      rw [h1, h2, List.append_assoc]
termination_by a.length
decreasing_by
  simp only [List.length_drop]
  omega

/-- C1 counterexample: the multi-line guard is not idempotent.  On
`"edit\nl\nend_edit\nfoo"` one application yields
`"edit << 'end_edit'\nl\nend_edit\n\nfoo"` (the matched block keeps no
trailing newline, and `"\n".join` inserts one before the remainder
`"\nfoo"`); on the second application the edit pattern's trailing `\s*$`
absorbs the block's final newline into the match, and the join inserts yet
another newline, so the text keeps growing. -/
theorem guard_multiline_input_not_idempotent :
    guardMultilineInput (guardMultilineInput (cs "edit\nl\nend_edit\nfoo")) ≠
      guardMultilineInput (cs "edit\nl\nend_edit\nfoo") := by
  decide

/-- C1 amended: the multi-line guard is idempotent on every action text in
which the block-command pattern table has no match (on such texts it is the
identity unless the text is pure whitespace, in which case it returns the
empty text); an action text containing a matched block command followed by
further content can instead gain an extra newline separator on each
application. -/
theorem guard_multiline_input_idempotent_when_unmatched (a : List Char)
    (h : searchEdit a = none) :
    guardMultilineInput (guardMultilineInput a) = guardMultilineInput a := by
  by_cases h0 : pyStrip a = []
  · have hga : guardMultilineInput a = [] := by
      rw [guardMultilineInput, guardPieces_nilstrip h0]
      rfl
    rw [hga, guardMultilineInput, guardPieces_nilstrip (by rfl)]
    rfl
  · have hga : guardMultilineInput a = a := by
      rw [guardMultilineInput, guardPieces_nomatch h0 h]
      rfl
    rw [hga]
    exact hga

theorem guard_multiline_input_idempotent_when_unmatched_witness :
    searchEdit (cs "ls -la") = none ∧
      guardMultilineInput (guardMultilineInput (cs "ls -la")) =
        guardMultilineInput (cs "ls -la") :=
  ⟨by decide, guard_multiline_input_idempotent_when_unmatched (cs "ls -la") (by decide)⟩

/-! ### `should_block_action` -/

/-- `should_block_action`: split the stripped action on whitespace; an empty
split blocks nothing; otherwise the leading token is checked against the
general blocklist, and against the standalone blocklist together with
equality to the entire stripped action. -/
def shouldBlockAction (blocklist blocklistStandalone : List (List Char))
    (action : List Char) : Bool :=
  match pySplitWs (pyStrip action) with
  | [] => false
  | name :: _ =>
    if name ∈ blocklist then true
    else if name ∈ blocklistStandalone ∧ name = pyStrip action then true
    else false

/-- C7: `should_block_action` blocks an action iff its leading token is in
the general blocklist, or its leading token is in the standalone blocklist
and equals the entire stripped action text.  In particular a
standalone-listed name followed by arguments (leading token ≠ stripped
action) is not blocked unless the name is also in the general blocklist. -/
theorem should_block_action_iff (bl bls : List (List Char)) (a : List Char) :
    shouldBlockAction bl bls a = true ↔
      ∃ tok, (pySplitWs (pyStrip a)).head? = some tok ∧
        (tok ∈ bl ∨ (tok ∈ bls ∧ tok = pyStrip a)) := by
  rw [shouldBlockAction]
  cases hn : pySplitWs (pyStrip a) with
  | nil => simp
  | cons name rest =>
    simp only [List.head?_cons, Option.some.injEq]
    split_ifs with h1 h2
    · exact iff_of_true rfl ⟨name, rfl, Or.inl h1⟩
    · exact iff_of_true rfl ⟨name, rfl, Or.inr h2⟩
    · simp only [Bool.false_eq_true, false_iff, not_exists]
      rintro tok ⟨htok, hc⟩
      rcases htok with rfl
      rcases hc with hc | hc
      · exact h1 hc
      · exact h2 hc

/-! ### `_get_first_match` pattern-table selection -/

/-- The `pattern_type` selector of `_get_first_match`. -/
inductive PatternType
  | subroutineView
  | multiLine
  | multiLineNoSubroutines
deriving Repr, DecidableEq

/-- A Python exception escaping `_get_first_match`. -/
inductive PyErr
  | typeError
deriving Repr, DecidableEq

/-- `_get_first_match(action, pattern_type)`.  For `"subroutine"` the
subroutine table (here `{submit}`) is searched; for
`"multi_line_no_subroutines"` the command table restricted to block commands
(here `{edit}`) is searched.  For `"multi_line"` the source first builds the
command table restricted to block/submit commands and then executes
`patterns += {k: v for k, v in self.subroutine_patterns.items() if ...}`:
`dict` supports neither `+=` nor `+`, so this raises
`TypeError: unsupported operand type(s) for +=: 'dict' and 'dict'` before any
pattern is consulted. -/
def getFirstMatch (patternType : PatternType) (action : List Char) :
    Except PyErr (Option (Nat × Nat)) :=
  match patternType with
  | .subroutineView => .ok ((searchSubmit action).map (fun m => (m.s, m.e)))
  | .multiLine => .error .typeError
  | .multiLineNoSubroutines => .ok (searchEdit action)

/-- C8 (code bug): requesting the `"multi_line"` pattern table never returns
a leftmost match over the block/submit command patterns plus the block
subroutine patterns: `_get_first_match` raises `TypeError` at
`patterns += {...}` for every action text. -/
theorem get_first_match_multi_line_raises (action : List Char) :
    getFirstMatch .multiLine action = .error .typeError := rfl

/-! ### `check_format_and_requery` (default model identity) -/

/-- The thought of the sentinel triple, `"Exit due to format error"`. -/
def exitFormatThought : List Char := cs "Exit due to format error"

/-- The action of the sentinel triple, `"exit_format"`. -/
def exitFormatAction : List Char := cs "exit_format"

/-- The retry loop of `check_format_and_requery` for the default model
identity (neither `"human"` nor `"human_thought"`).  The collaborators are
abstract: `parse` is `config.parse_function` (`none` models a raised
`FormatError`), `block` is `should_block_action` on the parsed action,
`retryFormat`/`retryBlocklist` return the model's output for
`retry_after_format_fail` / `retry_after_blocklist_fail`.  The final `Nat`
counts the retry queries issued.  The loop runs while
`format_fails + blocklist_fails <= 2` and past that returns the sentinel
triple with the current output. -/
def checkFormatAndRequery
    (parse : List Char → Option (List Char × List Char))
    (block : List Char → Bool)
    (retryFormat : List Char → List Char)
    (retryBlocklist : List Char → List Char → List Char)
    (formatFails blocklistFails : Nat) (output : List Char) (retries : Nat) :
    (List Char × List Char × List Char) × Nat :=
  if _hle : formatFails + blocklistFails ≤ 2 then
    match parse output with
    | none =>
      checkFormatAndRequery parse block retryFormat retryBlocklist
        (formatFails + 1) blocklistFails (retryFormat output) (retries + 1)
    | some (thought, action) =>
      if block action then
        checkFormatAndRequery parse block retryFormat retryBlocklist
          formatFails (blocklistFails + 1) (retryBlocklist output action) (retries + 1)
      else ((thought, action, output), retries)
  else ((exitFormatThought, exitFormatAction, output), retries)
termination_by 3 - (formatFails + blocklistFails)
decreasing_by
  · omega
  · omega

theorem checkFormatAndRequery_step_fail {parse : List Char → Option (List Char × List Char)}
    {block : List Char → Bool} {retryFormat : List Char → List Char}
    {retryBlocklist : List Char → List Char → List Char}
    {ff bf : Nat} {output : List Char} {retries : Nat}
    (hle : ff + bf ≤ 2) (hp : parse output = none) :
    checkFormatAndRequery parse block retryFormat retryBlocklist ff bf output retries =
      checkFormatAndRequery parse block retryFormat retryBlocklist
        (ff + 1) bf (retryFormat output) (retries + 1) := by
  rw [checkFormatAndRequery, dif_pos hle, hp]

theorem checkFormatAndRequery_exit {parse : List Char → Option (List Char × List Char)}
    {block : List Char → Bool} {retryFormat : List Char → List Char}
    {retryBlocklist : List Char → List Char → List Char}
    {ff bf : Nat} {output : List Char} {retries : Nat}
    (hgt : ¬ff + bf ≤ 2) :
    checkFormatAndRequery parse block retryFormat retryBlocklist ff bf output retries =
      ((exitFormatThought, exitFormatAction, output), retries) := by
  rw [checkFormatAndRequery, dif_neg hgt]

/-- A parser stub that fails on every output (a model whose output never
parses). -/
def alwaysFailParse : List Char → Option (List Char × List Char) := fun _ => none

/-- C2 counterexample: fed a parser that always fails, the validator returns
the sentinel triple only after issuing 3 retry queries, not 2: the loop body
runs for `format_fails = 0, 1, 2` and each run both parses the current
output and issues a fresh retry query, so the initial output plus the first
two retry outputs are parsed, but a third retry query is still issued and
its unparsed output is what the sentinel triple carries. -/
theorem check_format_and_requery_three_retries :
    checkFormatAndRequery alwaysFailParse (fun _ => false) (fun o => 'r' :: o)
        (fun o _ => o) 0 0 (cs "x") 0 =
      ((exitFormatThought, exitFormatAction, cs "rrrx"), 3) ∧ (3 : Nat) ≠ 2 := by
  refine ⟨?_, by decide⟩
  rw [checkFormatAndRequery_step_fail (by omega) rfl,
    checkFormatAndRequery_step_fail (by omega) rfl,
    checkFormatAndRequery_step_fail (by omega) rfl,
    checkFormatAndRequery_exit (by omega)]
  decide

/-- C2 amended: for the default model identity, when the configured parser
fails on every output, `check_format_and_requery` makes exactly 3 parse
attempts (on the initial output and the first two retry outputs) and then
returns the sentinel triple `("Exit due to format error", "exit_format",
output)`; in doing so it issues 3 retry queries in total, and the `output` of
the sentinel triple is the third retry's never-parsed output. -/
theorem check_format_and_requery_always_fail
    (parse : List Char → Option (List Char × List Char))
    (block : List Char → Bool) (retryFormat : List Char → List Char)
    (retryBlocklist : List Char → List Char → List Char)
    (h : ∀ o, parse o = none) (o : List Char) :
    checkFormatAndRequery parse block retryFormat retryBlocklist 0 0 o 0 =
      ((exitFormatThought, exitFormatAction,
        retryFormat (retryFormat (retryFormat o))), 3) := by
  rw [checkFormatAndRequery_step_fail (by omega) (h o),
    checkFormatAndRequery_step_fail (by omega) (h _),
    checkFormatAndRequery_step_fail (by omega) (h _),
    checkFormatAndRequery_exit (by omega)]

theorem check_format_and_requery_always_fail_witness :
    checkFormatAndRequery alwaysFailParse (fun _ => true) (fun o => '!' :: o)
        (fun o _ => o) 0 0 (cs "y") 0 =
      ((exitFormatThought, exitFormatAction, '!' :: '!' :: '!' :: cs "y"), 3) :=
  check_format_and_requery_always_fail alwaysFailParse (fun _ => true)
    (fun o => '!' :: o) (fun o _ => o) (fun _ => rfl) (cs "y")

/-! ### Subroutine stats accounting (`call_subroutine`) -/

/-- Cost and token counters.

Modelled from the spec: the `APIStats` class lives in
`sweagent/agent/models.py`, which is not among the sources; per the spec it
holds "monotonically accumulating counters (tokens, request count, cost)"
where each model query adds its reported usage, `reset_stats(init)` starts an
agent's stats from `init`, and `replace` overwrites the caller's stats with
the given ones. -/
structure APIStats where
  cost : Nat
  tokens : Nat
deriving Repr, DecidableEq

/-- Accumulation of one reported usage into a stats object. -/
def statsAdd (s u : APIStats) : APIStats := ⟨s.cost + u.cost, s.tokens + u.tokens⟩

/-- One event observed by a running agent, in order: a model query with its
reported usage, or a nested subroutine invocation carrying the events of its
own (recursively structured) run. -/
inductive AgentEvent
  | query (usage : APIStats)
  | subroutine (events : List AgentEvent)

/-- The stats object threaded through a run, as `call_subroutine` wires it:
each query accumulates its usage; a subroutine is created with
`init_model_stats = self.model.stats` (so its accumulation continues from the
caller's current totals) and on return
`self.model.stats.replace(sub_agent.model.stats)` makes the sub-agent's final
stats the caller's. -/
def runStats : APIStats → List AgentEvent → APIStats
  | s, [] => s
  | s, .query u :: es => runStats (statsAdd s u) es
  | s, .subroutine sub :: es => runStats (runStats s sub) es

/-- The sum of every individual query's reported usage anywhere in a call
tree. -/
def totalUsage : List AgentEvent → APIStats
  | [] => ⟨0, 0⟩
  | .query u :: es => statsAdd u (totalUsage es)
  | .subroutine sub :: es => statsAdd (totalUsage sub) (totalUsage es)

theorem statsAdd_assoc (a b c : APIStats) :
    statsAdd (statsAdd a b) c = statsAdd a (statsAdd b c) := by
  cases a; cases b; cases c
  simp only [statsAdd, APIStats.mk.injEq]
  omega

theorem statsAdd_zero (s : APIStats) : statsAdd s ⟨0, 0⟩ = s := by
  cases s
  simp [statsAdd]

theorem runStats_eq : ∀ (s : APIStats) (es : List AgentEvent),
    runStats s es = statsAdd s (totalUsage es)
  | s, [] => by rw [runStats, totalUsage, statsAdd_zero]
  | s, .query u :: es => by
    rw [runStats, totalUsage, runStats_eq (statsAdd s u) es, statsAdd_assoc]
  | s, .subroutine sub :: es => by
    rw [runStats, totalUsage, runStats_eq _ es, runStats_eq s sub, statsAdd_assoc]

/-- C4: for any call tree of nested subroutine invocations, the root
runtime's final accumulated cost and token counters equal the sum of every
individual model query's reported usage anywhere in the tree, because the
running stats are handed to each subroutine at creation
(`init_model_stats = self.model.stats`) and replaced by the sub-agent's final
stats on return (`self.model.stats.replace(...)`). -/
theorem subroutine_stats_conservation (events : List AgentEvent) :
    runStats ⟨0, 0⟩ events = totalUsage events := by
  rw [runStats_eq]
  cases h : totalUsage events
  simp [statsAdd]

/-! ### Environment snapshot and restore in `call_subroutine` -/

/-- The shared execution environment, at the level of the contract
`call_subroutine` relies on: shell variable values and the working
directory.  `env.communicate(f"{k}={v}")` sets a variable (inside
`set_environment_vars`), `env.communicate(f"echo ${k}")` reads one
(`get_environment_vars`), `env.communicate("pwd -P")` reads the working
directory, `env.communicate(f"cd {cwd}")` sets it. -/
structure EnvState where
  vars : List Char → List Char
  cwd : List Char

/-- `get_environment_vars(env)`: the configured variables paired with their
current values. -/
def getEnvironmentVars (cfgVars : List (List Char)) (env : EnvState) :
    List (List Char × List Char) :=
  cfgVars.map (fun k => (k, env.vars k))

/-- The variable assignments executed in sequence by
`set_environment_vars(env, kvs)` (that function additionally re-runs the
state command and re-registers command files, which touch neither variables
nor the working directory). -/
def setEnvironmentVars (kvs : List (List Char × List Char)) (env : EnvState) :
    EnvState :=
  kvs.foldl
    (fun e kv => { e with vars := fun k => if k = kv.1 then kv.2 else e.vars k }) env

/-- The caller-visible state of the agent object across `call_subroutine`
(history entries kept opaque). -/
structure AgentState where
  name : List Char
  history : List (List Char)
  stats : APIStats

/-- `call_subroutine(agent_name, sub_action, env)`: snapshot the configured
variables and the working directory; run the optional `init_observation`
step and the sub-agent to completion (`subRun`, an arbitrary effect on the
shared environment that also yields the sub-agent's history and final
stats); splice the sub-agent's history onto the caller's
(`self.history += sub_agent.history`); restore the snapshotted variables
(`self.set_environment_vars(env, env_vars)`) and working directory
(`env.communicate(f"cd {cwd}")`); replace the caller's stats with the
sub-agent's final stats (`self.model.stats.replace(...)`). -/
def callSubroutine (cfgVars : List (List Char))
    (subRun : EnvState → EnvState × List (List Char) × APIStats)
    (caller : AgentState) (env : EnvState) : AgentState × EnvState :=
  let envVars := getEnvironmentVars cfgVars env
  let cwd := env.cwd
  let env1 := (subRun env).1
  let env2 := setEnvironmentVars envVars env1
  let env3 := { env2 with cwd := cwd }
  ({ caller with
      history := caller.history ++ (subRun env).2.1,
      stats := (subRun env).2.2 }, env3)

theorem setEnvironmentVars_cwd (kvs : List (List Char × List Char)) :
    ∀ env : EnvState, (setEnvironmentVars kvs env).cwd = env.cwd := by
  induction kvs with
  | nil => intro env; rfl
  | cons kv rest ih =>
    intro env
    rw [setEnvironmentVars, List.foldl_cons]
    exact ih _

theorem setEnvironmentVars_snapshot (f : List Char → List Char) :
    ∀ (ks : List (List Char)) (env : EnvState) (k : List Char),
      (setEnvironmentVars (ks.map (fun k' => (k', f k'))) env).vars k =
        if k ∈ ks then f k else env.vars k := by
  intro ks
  induction ks with
  | nil => intro env k; simp [setEnvironmentVars]
  | cons k0 rest ih =>
    intro env k
    rw [List.map_cons, setEnvironmentVars, List.foldl_cons, ← setEnvironmentVars, ih]
    by_cases h1 : k ∈ rest
    · simp [h1]
    · by_cases h2 : k = k0
      · subst h2
        simp [h1]
      · simp [h1, h2]

/-- C10: when `call_subroutine` returns normally, every configured
environment variable and the working directory of the shared environment are
restored to the values snapshotted immediately before the subroutine was
invoked, whatever the subroutine did to them; of the caller's own state only
the history (which gains exactly the sub-agent's history) and the stats
(replaced by the sub-agent's final stats) change. -/
theorem call_subroutine_restores_environment (cfgVars : List (List Char))
    (subRun : EnvState → EnvState × List (List Char) × APIStats)
    (caller : AgentState) (env : EnvState) (k : List Char) (hk : k ∈ cfgVars) :
    (callSubroutine cfgVars subRun caller env).2.vars k = env.vars k ∧
    (callSubroutine cfgVars subRun caller env).2.cwd = env.cwd ∧
    (callSubroutine cfgVars subRun caller env).1.name = caller.name ∧
    (callSubroutine cfgVars subRun caller env).1.history =
      caller.history ++ (subRun env).2.1 ∧
    (callSubroutine cfgVars subRun caller env).1.stats = (subRun env).2.2 := by
  refine ⟨?_, ?_, rfl, rfl, rfl⟩
  · show (setEnvironmentVars (getEnvironmentVars cfgVars env) (subRun env).1).vars k =
      env.vars k
    rw [getEnvironmentVars, setEnvironmentVars_snapshot, if_pos hk]
  · show env.cwd = env.cwd
    rfl

/-- A concrete subroutine effect that clobbers every variable and the
working directory. -/
def exSubRun : EnvState → EnvState × List (List Char) × APIStats :=
  fun _ => (⟨fun _ => cs "clobbered", cs "/tmp"⟩, [cs "subturn"], ⟨5, 7⟩)

/-- A concrete caller agent state. -/
def exCaller : AgentState := ⟨selfName, [cs "turn0"], ⟨1, 2⟩⟩

/-- A concrete environment before the subroutine call. -/
def exEnv : EnvState := ⟨fun _ => cs "orig", cs "/root"⟩

theorem call_subroutine_restores_environment_witness :
    cs "DIR" ∈ [cs "DIR"] ∧
      ((callSubroutine [cs "DIR"] exSubRun exCaller exEnv).2.vars (cs "DIR") =
          exEnv.vars (cs "DIR") ∧
        (callSubroutine [cs "DIR"] exSubRun exCaller exEnv).2.cwd = exEnv.cwd ∧
        (callSubroutine [cs "DIR"] exSubRun exCaller exEnv).1.name = exCaller.name ∧
        (callSubroutine [cs "DIR"] exSubRun exCaller exEnv).1.history =
          exCaller.history ++ (exSubRun exEnv).2.1 ∧
        (callSubroutine [cs "DIR"] exSubRun exCaller exEnv).1.stats =
          (exSubRun exEnv).2.2) :=
  ⟨by decide,
    call_subroutine_restores_environment [cs "DIR"] exSubRun exCaller exEnv
      (cs "DIR") (by decide)⟩

/-! ### Checkpoint loading (`run`, checkpoint branch) -/

/-- One persisted history turn (`role`, `content`, `agent` always present;
`action` present on assistant turns). -/
structure HistTurn where
  role : List Char
  content : List Char
  agent : List Char
  action : Option (List Char)
deriving Repr, DecidableEq

/-- One persisted trajectory step. -/
structure TrajStepR where
  action : List Char
  observation : List Char
  response : List Char
  state : List Char
  thought : List Char
deriving Repr, DecidableEq

/-- A Python exception aborting the checkpoint load: the failed `assert`
(role or action mismatch), a missing `action` key, or indexing into an
empty history. -/
inductive LoadErr
  | assertionError
  | keyError
  | indexError
deriving Repr, DecidableEq

/-- The cost-exit sentinel action `"exit_cost"`. -/
def exitCost : List Char := cs "exit_cost"

/-- `"assistant"`. -/
def assistantRole : List Char := cs "assistant"

/-- The loop over `checkpoint['trajectory']`: a step whose action is the
cost-exit sentinel triggers
`assert history[-1]['role'] == 'assistant' and history[-1]['action'] ==
'exit_cost'`, drops the last history turn and is skipped (`continue`); every
other step is appended to the replay trajectory. -/
def loadCheckpointGo :
    List TrajStepR → List TrajStepR → List HistTurn →
      Except LoadErr (List TrajStepR × List HistTurn)
  | [], trajAcc, hist => .ok (trajAcc, hist)
  | st :: rest, trajAcc, hist =>
    if st.action = exitCost then
      match hist.getLast? with
      | none => .error .indexError
      | some turn =>
        if turn.role = assistantRole then
          match turn.action with
          | none => .error .keyError
          | some act =>
            if act = exitCost then loadCheckpointGo rest trajAcc hist.dropLast
            else .error .assertionError
        else .error .assertionError
    else loadCheckpointGo rest (trajAcc ++ [st]) hist

/-- Reconstruction of the replay trajectory and the history from a persisted
checkpoint. -/
def loadCheckpoint (traj : List TrajStepR) (hist : List HistTurn) :
    Except LoadErr (List TrajStepR × List HistTurn) :=
  loadCheckpointGo traj [] hist

/-- A non-exit trajectory step. -/
def exStepLs : TrajStepR := ⟨cs "ls", cs "out", cs "resp", cs "st", cs "th"⟩

/-- A cost-exit trajectory step. -/
def exStepExit : TrajStepR := ⟨cs "exit_cost", cs "", cs "", cs "", cs ""⟩

/-- A user history turn. -/
def exTurnUser : HistTurn := ⟨cs "user", cs "obs", cs "primary", none⟩

/-- The dangling assistant cost-exit history turn. -/
def exTurnExit : HistTurn :=
  ⟨cs "assistant", cs "Exit due to cost limit", cs "primary", some (cs "exit_cost")⟩

/-- C9 counterexample: the checkpoint whose trajectory actions are
`["exit_cost", "ls"]` has no *trailing* cost-exit step (its last recorded
action is `"ls"`), yet loading it does not leave the persisted history
unchanged: the cost-exit drop fires for every step whose action is the
sentinel, not only a trailing one. -/
theorem load_checkpoint_nontrailing_counterexample :
    ([exStepExit, exStepLs].getLast?.map TrajStepR.action ≠ some exitCost) ∧
    loadCheckpoint [exStepExit, exStepLs] [exTurnUser, exTurnExit] =
      .ok ([exStepLs], [exTurnUser]) ∧
    [exTurnUser] ≠ [exTurnUser, exTurnExit] := by
  refine ⟨by decide, by rfl, by decide⟩

theorem loadCheckpointGo_append_clean {traj : List TrajStepR}
    (rest : List TrajStepR) (hclean : ∀ st ∈ traj, st.action ≠ exitCost) :
    ∀ (acc : List TrajStepR) (hist : List HistTurn),
      loadCheckpointGo (traj ++ rest) acc hist =
        loadCheckpointGo rest (acc ++ traj) hist := by
  induction traj with
  | nil => intro acc hist; simp
  | cons st tl ih =>
    intro acc hist
    rw [List.cons_append, loadCheckpointGo, if_neg (hclean st (by simp))]
    rw [ih (fun s hs => hclean s (by simp [hs]))]
    simp

/-- C9 amended: the cost-exit check-and-drop fires for *every* trajectory
step whose recorded action is the cost-exit sentinel, not only a trailing
one.  A checkpoint with no cost-exit step anywhere reconstructs the
persisted history (and trajectory) unchanged; when the only cost-exit step
is trailing, the dangling turn is dropped after the paired invariant check
(that turn's role is assistant and its action is the sentinel), and a
role-mismatch aborts the load as a corruption error. -/
theorem load_checkpoint_cases (traj : List TrajStepR) (hist : List HistTurn)
    (turn : HistTurn) (tl : TrajStepR)
    (hclean : ∀ st ∈ traj, st.action ≠ exitCost) (htl : tl.action = exitCost) :
    loadCheckpoint traj hist = .ok (traj, hist) ∧
    (turn.role = assistantRole → turn.action = some exitCost →
      loadCheckpoint (traj ++ [tl]) (hist ++ [turn]) = .ok (traj, hist)) ∧
    (turn.role ≠ assistantRole →
      loadCheckpoint (traj ++ [tl]) (hist ++ [turn]) = .error .assertionError) := by
  refine ⟨?_, ?_, ?_⟩
  · have h := loadCheckpointGo_append_clean [] hclean [] hist
    rw [List.append_nil] at h
    rw [loadCheckpoint, h, loadCheckpointGo, List.nil_append]
  · intro hrole haction
    rw [loadCheckpoint, loadCheckpointGo_append_clean [tl] hclean, loadCheckpointGo,
      if_pos htl, List.getLast?_concat]
    simp only []
    rw [if_pos hrole, haction]
    simp only []
    rw [if_pos trivial, List.dropLast_concat, loadCheckpointGo, List.nil_append]
  · intro hrole
    rw [loadCheckpoint, loadCheckpointGo_append_clean [tl] hclean, loadCheckpointGo,
      if_pos htl, List.getLast?_concat]
    simp only []
    rw [if_neg hrole]

theorem load_checkpoint_cases_witness :
    loadCheckpoint [exStepLs] [exTurnUser] = .ok ([exStepLs], [exTurnUser]) ∧
    (exTurnExit.role = assistantRole → exTurnExit.action = some exitCost →
      loadCheckpoint ([exStepLs] ++ [exStepExit]) ([exTurnUser] ++ [exTurnExit]) =
        .ok ([exStepLs], [exTurnUser])) ∧
    (exTurnExit.role ≠ assistantRole →
      loadCheckpoint ([exStepLs] ++ [exStepExit]) ([exTurnUser] ++ [exTurnExit]) =
        .error .assertionError) :=
  load_checkpoint_cases [exStepLs] [exTurnUser] exTurnExit exStepExit
    (by decide) (by decide)

/-! ### Dispatch of split actions: live loop and checkpoint replay -/

/-- `"search_repo"`, the special retrieval command name. -/
def searchRepoName : List Char := cs "search_repo"

/-- One dispatch observed by the environment: the action text handed over,
and whether the split action was the submit command. -/
structure DispatchRec where
  action : List Char
  isSubmit : Bool
deriving Repr, DecidableEq

/-- The inner loop of the live `run` over the split actions of one step:
an owned or submit split action is handed to the environment (`env.step`,
whose `done` flag replaces the loop's — except for a `search_repo` action,
which goes through `env.communicate` and leaves `done` untouched), then
`done` is forced on the submit command, and the loop breaks the moment
`done` holds; a subroutine split action is dispatched through
`call_subroutine` with no `done` check at all.  Returns the dispatches
issued and the final `done`. -/
def dispatchSubActions (envStepDone : List Char → Bool) :
    List SplitAction → Bool → List DispatchRec × Bool
  | [], done => ([], done)
  | sa :: rest, done =>
    if sa.agent = selfName ∨ sa.cmdName = some submitName then
      let done1 := if isSubstr searchRepoName sa.action then done
        else envStepDone sa.action
      let done2 := if sa.cmdName = some submitName then true else done1
      if done2 then ([⟨sa.action, decide (sa.cmdName = some submitName)⟩], done2)
      else
        let rec1 := dispatchSubActions envStepDone rest done2
        (⟨sa.action, decide (sa.cmdName = some submitName)⟩ :: rec1.1, rec1.2)
    else
      let rec1 := dispatchSubActions envStepDone rest done
      (⟨sa.action, false⟩ :: rec1.1, rec1.2)

/-- C5: mid-batch dispatch stops immediately on termination.  First
scenario: a batch `[plain, submit, plain']` (environment never reporting
done) executes the plain and the submit action, never the third, and leaves
the loop `done`.  Second scenario: when the environment reports the episode
done on the first plain action, the batch `[plain, later]` executes only
that first action and leaves the loop `done`. -/
theorem live_dispatch_stops_on_termination
    (p q r p' r' : SplitAction) (envF envT : List Char → Bool)
    (hpOwn : p.agent = selfName) (hpSub : p.cmdName ≠ some submitName)
    (hpSearch : isSubstr searchRepoName p.action = false)
    (hpEnv : envF p.action = false)
    (hq : q.cmdName = some submitName)
    (hp'Own : p'.agent = selfName) (hp'Sub : p'.cmdName ≠ some submitName)
    (hp'Search : isSubstr searchRepoName p'.action = false)
    (hp'Env : envT p'.action = true) :
    dispatchSubActions envF [p, q, r] false =
      ([⟨p.action, false⟩, ⟨q.action, true⟩], true) ∧
    dispatchSubActions envT [p', r'] false = ([⟨p'.action, false⟩], true) := by
  constructor
  · simp [dispatchSubActions, hpOwn, hpSub, hpSearch, hpEnv, hq]
  · simp [dispatchSubActions, hp'Own, hp'Sub, hp'Search, hp'Env]

theorem live_dispatch_stops_on_termination_witness :
    dispatchSubActions (fun _ => false)
        [⟨selfName, none, cs "ls", none⟩,
          ⟨selfName, none, cs "submit", some submitName⟩,
          ⟨selfName, none, cs "echo hi", none⟩] false =
      ([⟨cs "ls", false⟩, ⟨cs "submit", true⟩], true) ∧
    dispatchSubActions (fun _ => true)
        [⟨selfName, none, cs "ls", none⟩, ⟨selfName, none, cs "echo hi", none⟩]
        false =
      ([⟨cs "ls", false⟩], true) :=
  live_dispatch_stops_on_termination
    ⟨selfName, none, cs "ls", none⟩ ⟨selfName, none, cs "submit", some submitName⟩
    ⟨selfName, none, cs "echo hi", none⟩ ⟨selfName, none, cs "ls", none⟩
    ⟨selfName, none, cs "echo hi", none⟩ (fun _ => false) (fun _ => true)
    rfl (by decide) (by decide) rfl rfl rfl (by decide) (by decide) rfl

/-- The inner loop of checkpoint replay over the split actions of one
recorded step: like the live loop it dispatches owned/submit split actions
through `env.step` and subroutine ones through `call_subroutine`, and it
sets `done` on the submit command — but it discards `env.step`'s return
value and has no `break`, so dispatching always continues. -/
def replaySubActions : List SplitAction → Bool → List DispatchRec × Bool
  | [], done => ([], done)
  | sa :: rest, done =>
    if sa.agent = selfName ∨ sa.cmdName = some submitName then
      let done1 := if sa.cmdName = some submitName then true else done
      let rec1 := replaySubActions rest done1
      (⟨sa.action, decide (sa.cmdName = some submitName)⟩ :: rec1.1, rec1.2)
    else
      let rec1 := replaySubActions rest done
      (⟨sa.action, false⟩ :: rec1.1, rec1.2)

/-- The outer loop of checkpoint replay: for every recorded trajectory step
in order, re-run the guard and the splitter on its action text and dispatch
every resulting split action; the outer loop never consults `done`. -/
def replayTrajectory : List (List Char) → Bool → List DispatchRec × Bool
  | [], done => ([], done)
  | action :: rest, done =>
    let step := replaySubActions (splitActions (guardMultilineInput action)) done
    let rest1 := replayTrajectory rest step.2
    (step.1 ++ rest1.1, rest1.2)

/-- The dispatch behaviour C3 claims: once a submit split action has been
dispatched, nothing further is dispatched. -/
def noDispatchAfterSubmit : List DispatchRec → Bool
  | [] => true
  | r :: rs => if r.isSubmit then rs.isEmpty else noDispatchAfterSubmit rs

/-- C3 counterexample: replaying the recorded trajectory whose step actions
are `["submit", "ls"]` dispatches the submit command against the live
environment and then still dispatches the later `"ls"` step: the replay
loop sets `done` on the submit split action but has no `break` and its
outer loop never consults `done`. -/
theorem replay_dispatches_past_submit :
    replayTrajectory [cs "submit", cs "ls"] false =
      ([⟨cs "submit", true⟩, ⟨cs "ls", false⟩], true) ∧
    noDispatchAfterSubmit (replayTrajectory [cs "submit", cs "ls"] false).1 =
      false := by
  refine ⟨by decide, by decide⟩

theorem replaySubActions_spec (subs : List SplitAction) (done : Bool) :
    replaySubActions subs done =
      (subs.map (fun sa =>
        (⟨sa.action, decide (sa.cmdName = some submitName)⟩ : DispatchRec)),
       done || subs.any (fun sa => decide (sa.cmdName = some submitName))) := by
  induction subs generalizing done with
  | nil => simp [replaySubActions]
  | cons sa rest ih =>
    rw [replaySubActions]
    by_cases hown : sa.agent = selfName ∨ sa.cmdName = some submitName
    · rw [if_pos hown]
      by_cases hsub : sa.cmdName = some submitName
      · simp [hsub, ih]
      · simp [hsub, ih]
    · rw [if_neg hown]
      have hsub : ¬sa.cmdName = some submitName := fun hc => hown (Or.inr hc)
      simp [hsub, ih]

/-- C3 amended: during checkpoint replay, a dispatched submit split action
sets `done` — so the live loop after replay is skipped — but it stops
nothing: every split action of every recorded trajectory step is dispatched
against the live environment, and `done` ends up set iff some dispatched
split action was the submit command. -/
theorem replay_dispatches_all_steps (actions : List (List Char)) (done₀ : Bool) :
    replayTrajectory actions done₀ =
      ((actions.map (fun a =>
        (splitActions (guardMultilineInput a)).map (fun sa =>
          (⟨sa.action, decide (sa.cmdName = some submitName)⟩ : DispatchRec)))).flatten,
       done₀ || actions.any (fun a =>
        (splitActions (guardMultilineInput a)).any
          (fun sa => decide (sa.cmdName = some submitName)))) := by
  induction actions generalizing done₀ with
  | nil => simp [replayTrajectory]
  | cons a rest ih =>
    rw [replayTrajectory]
    simp [replaySubActions_spec, ih, Bool.or_assoc]

end DarsAgent
